import Mathlib

/-!
# OptiX path tracer: refraction, Schlick reflectance, host random source, scenes, image output

Shallow embedding of

* `programs/materials/material.h` : `schlick`, `refract`
* `host_includes/host_common.hpp` : `rnd`, `Light_Sampler`
* `host_includes/scenes.hpp`      : the light registration of the five scene
  builders, the meshes and the camera of `Test_Scene`
* `main.cpp`                      : `clamp` and the copy of the frame buffer
  into the image array

The device and host code computes on `float`.  The functions are embedded
polymorphically in the scalar type, so that the same definition is read in
three arithmetics:

* exact real arithmetic (`ℝ` with `Real.sqrt`), the idealisation in which the
  functional claims (Snell, unit length, Schlick bounds) are stated;
* `Flt α`, exact arithmetic extended with the IEEE-754 special values
  `+Inf`, `-Inf`, `NaN` (no rounding, no overflow, one unsigned zero), in which
  the production of non-finite values can be observed;
* `F32`, IEEE-754 binary32 with rounding to nearest, overflow and gradual
  underflow, on which the claims are evaluated at concrete inputs.

The `int` index arithmetic of `main.cpp` is embedded on 32-bit two's complement
integers with wrap-around.
-/

namespace OptiX

/-! ## Scalars with IEEE special values -/

/-- Values of a `float` where the finite ones are exact numbers of `α`:
`fin a`, `+Inf`, `-Inf`, `NaN`. -/
inductive Flt (α : Type) where
  | fin (a : α)
  | pinf
  | ninf
  | nan
deriving DecidableEq, Repr

namespace Flt

variable {α : Type} [LinearOrderedField α]

/-- IEEE negation. -/
def neg : Flt α → Flt α
  | fin a => fin (-a)
  | pinf => ninf
  | ninf => pinf
  | nan => nan

/-- IEEE addition: `Inf + (-Inf)` is `NaN`, `NaN` is absorbing. -/
def add : Flt α → Flt α → Flt α
  | fin a, fin b => fin (a + b)
  | fin _, pinf => pinf
  | fin _, ninf => ninf
  | pinf, fin _ => pinf
  | pinf, pinf => pinf
  | pinf, ninf => nan
  | ninf, fin _ => ninf
  | ninf, ninf => ninf
  | ninf, pinf => nan
  | nan, _ => nan
  | fin _, nan => nan
  | pinf, nan => nan
  | ninf, nan => nan

/-- IEEE subtraction, `a - b = a + (-b)`. -/
def sub (a b : Flt α) : Flt α := add a (neg b)

/-- The infinity with the sign of `a * (+Inf)`; `0 * Inf` is `NaN`. -/
def infTimes (a : α) (positive : Bool) : Flt α :=
  if a = 0 then nan
  else if (0 < a) = positive then pinf else ninf

/-- IEEE multiplication: `0 * Inf` is `NaN`, `NaN` is absorbing. -/
def mul : Flt α → Flt α → Flt α
  | fin a, fin b => fin (a * b)
  | fin a, pinf => infTimes a true
  | fin a, ninf => infTimes a false
  | pinf, fin b => infTimes b true
  | ninf, fin b => infTimes b false
  | pinf, pinf => pinf
  | pinf, ninf => ninf
  | ninf, pinf => ninf
  | ninf, ninf => pinf
  | nan, _ => nan
  | fin _, nan => nan
  | pinf, nan => nan
  | ninf, nan => nan

/-- IEEE division: `0 / 0` and `Inf / Inf` are `NaN`, a non-zero finite value
divided by zero is an infinity (the zero divisor is read as `+0`). -/
def div : Flt α → Flt α → Flt α
  | fin a, fin b =>
      if b = 0 then (if a = 0 then nan else if 0 < a then pinf else ninf)
      else fin (a / b)
  | fin _, pinf => fin 0
  | fin _, ninf => fin 0
  | pinf, fin b => if 0 ≤ b then pinf else ninf
  | ninf, fin b => if 0 ≤ b then ninf else pinf
  | pinf, pinf => nan
  | pinf, ninf => nan
  | ninf, pinf => nan
  | ninf, ninf => nan
  | nan, _ => nan
  | fin _, nan => nan
  | pinf, nan => nan
  | ninf, nan => nan

/-- IEEE ordered comparison `a < b`: false as soon as one side is `NaN`. -/
def lt : Flt α → Flt α → Bool
  | fin a, fin b => decide (a < b)
  | fin _, pinf => true
  | ninf, fin _ => true
  | ninf, pinf => true
  | _, _ => false

/-- IEEE square root over a square root `s` of the finite values:
`sqrt(0) = 0`, `sqrt(x) = NaN` for `x < 0`, `sqrt(+Inf) = +Inf`. -/
def sqrt (s : α → α) : Flt α → Flt α
  | fin a => if a < 0 then nan else if a = 0 then fin 0 else fin (s a)
  | pinf => pinf
  | ninf => nan
  | nan => nan

instance : Zero (Flt α) := ⟨fin 0⟩
instance : One (Flt α) := ⟨fin 1⟩
instance : Add (Flt α) := ⟨add⟩
instance : Sub (Flt α) := ⟨sub⟩
instance : Mul (Flt α) := ⟨mul⟩
instance : Div (Flt α) := ⟨div⟩
instance : LT (Flt α) := ⟨fun a b => lt a b = true⟩
instance : DecidableRel (fun (a b : Flt α) => a < b) :=
  fun a b => inferInstanceAs (Decidable (lt a b = true))

end Flt

/-! ## Binary32 arithmetic

The `float` of the program as IEEE-754 binary32: finite values are dyadic
numbers with 24 significant bits, every operation is computed exactly and then
rounded to nearest, ties to even, with gradual underflow and overflow to an
infinity.  There is one unsigned zero. -/

/-- Number of binary digits of `n` (`0` for `0`), by halving at most `fuel` times. -/
def bitLength : Nat → Nat → Nat
  | 0, _ => 0
  | fuel + 1, n => if n = 0 then 0 else bitLength fuel (n / 2) + 1

/-- Newton iteration for the integer square root, from a start `x` above it. -/
def isqrtAux : Nat → Nat → Nat → Nat
  | 0, _, x => x
  | fuel + 1, n, x =>
    let y := (x + n / x) / 2
    if x ≤ y then x else isqrtAux fuel n y

/-- Integer square root: the largest `s` with `s * s <= n`. -/
def isqrt (n : Nat) : Nat :=
  if n = 0 then 0 else isqrtAux 64 n (2 ^ ((bitLength 512 n + 1) / 2))

/-- A binary32 value: a finite dyadic number `m * 2^e` (kept with `m` odd, or
`m = 0` and `e = 0`), `+Inf`, `-Inf` or `NaN`. -/
inductive F32 where
  | fin (m : Int) (e : Int)
  | pinf
  | ninf
  | nan
deriving DecidableEq, Repr

namespace F32

/-- The number of trailing zero bits of a positive `n`. -/
def trailingZeros : Nat → Nat → Nat
  | 0, _ => 0
  | fuel + 1, n => if n % 2 = 1 ∨ n = 0 then 0 else trailingZeros fuel (n / 2) + 1

/-- The finite value `m * 2^e` in its kept form. -/
def norm (m : Int) (e : Int) : F32 :=
  if m = 0 then fin 0 0
  else
    let t := trailingZeros 512 m.natAbs
    fin (m / (2 ^ t : Nat)) (e + t)

/-- Rounding to binary32 (nearest, ties to even) of the positive number
`p / q * 2^e` with the sign `neg`: 24 significant bits, gradual underflow
below `2^-126`, overflow to an infinity from `2^128` on. -/
def round (neg : Bool) (p q : Nat) (e : Int) : F32 :=
  let d : Int := (bitLength 512 p : Int) - (bitLength 512 q : Int)
  let ge : Bool := if 0 ≤ d then decide (q * 2 ^ d.toNat ≤ p) else decide (q ≤ p * 2 ^ (-d).toNat)
  let E : Int := (if ge then d else d - 1) + e
  let u : Int := max E (-126) - 23
  let s : Int := e - u
  let num : Nat := if 0 ≤ s then p * 2 ^ s.toNat else p
  let den : Nat := if 0 ≤ s then q else q * 2 ^ (-s).toNat
  let n0 := num / den
  let r := num % den
  let n : Nat := if den < 2 * r then n0 + 1
    else if 2 * r = den then (if n0 % 2 = 1 then n0 + 1 else n0)
    else n0
  if 128 < (bitLength 512 n : Int) + u then (if neg then ninf else pinf)
  else norm (if neg then -(n : Int) else (n : Int)) u

/-- Rounding of the dyadic number `m * 2^e`. -/
def ofDyadic (m : Int) (e : Int) : F32 :=
  if m = 0 then fin 0 0 else round (decide (m < 0)) m.natAbs 1 e

/-- Negation. -/
def neg : F32 → F32
  | fin m e => fin (-m) e
  | pinf => ninf
  | ninf => pinf
  | nan => nan

/-- Addition, rounded. -/
def add : F32 → F32 → F32
  | fin m1 e1, fin m2 e2 =>
      let e := min e1 e2
      ofDyadic (m1 * 2 ^ (e1 - e).toNat + m2 * 2 ^ (e2 - e).toNat) e
  | fin _ _, pinf => pinf
  | fin _ _, ninf => ninf
  | pinf, fin _ _ => pinf
  | pinf, pinf => pinf
  | pinf, ninf => nan
  | ninf, fin _ _ => ninf
  | ninf, ninf => ninf
  | ninf, pinf => nan
  | nan, _ => nan
  | fin _ _, nan => nan
  | pinf, nan => nan
  | ninf, nan => nan

/-- Subtraction, `a - b = a + (-b)`. -/
def sub (a b : F32) : F32 := add a (neg b)

/-- The infinity with the sign of `m * (+Inf)` or `m * (-Inf)`; `0 * Inf` is `NaN`. -/
def infTimes (m : Int) (positive : Bool) : F32 :=
  if m = 0 then nan
  else if decide (0 < m) = positive then pinf else ninf

/-- Multiplication, rounded. -/
def mul : F32 → F32 → F32
  | fin m1 e1, fin m2 e2 => ofDyadic (m1 * m2) (e1 + e2)
  | fin m _, pinf => infTimes m true
  | fin m _, ninf => infTimes m false
  | pinf, fin m _ => infTimes m true
  | ninf, fin m _ => infTimes m false
  | pinf, pinf => pinf
  | pinf, ninf => ninf
  | ninf, pinf => ninf
  | ninf, ninf => pinf
  | nan, _ => nan
  | fin _ _, nan => nan
  | pinf, nan => nan
  | ninf, nan => nan

/-- Division, rounded; a non-zero finite value divided by zero is an infinity
(the zero divisor is read as `+0`), `0 / 0` and `Inf / Inf` are `NaN`. -/
def div : F32 → F32 → F32
  | fin m1 e1, fin m2 e2 =>
      if m2 = 0 then (if m1 = 0 then nan else if 0 < m1 then pinf else ninf)
      else if m1 = 0 then fin 0 0
      else round (decide ((m1 < 0) ≠ (m2 < 0))) m1.natAbs m2.natAbs (e1 - e2)
  | fin _ _, pinf => fin 0 0
  | fin _ _, ninf => fin 0 0
  | pinf, fin m _ => if 0 ≤ m then pinf else ninf
  | ninf, fin m _ => if 0 ≤ m then ninf else pinf
  | pinf, pinf => nan
  | pinf, ninf => nan
  | ninf, pinf => nan
  | ninf, ninf => nan
  | nan, _ => nan
  | fin _ _, nan => nan
  | pinf, nan => nan
  | ninf, nan => nan

/-- Square root, correctly rounded. -/
def sqrt : F32 → F32
  | fin m e =>
      if m < 0 then nan
      else if m = 0 then fin 0 0
      else
        let odd : Bool := decide (e % 2 = 1)
        let m2 : Nat := if odd then 2 * m.natAbs else m.natAbs
        let e2 : Int := if odd then e - 1 else e
        let big := m2 * 4 ^ 64
        let s := isqrt big
        let sticky : Nat := if s * s = big then 0 else 1
        round false (2 * s + sticky) 1 (e2 / 2 - 65)
  | pinf => pinf
  | ninf => nan
  | nan => nan

/-- Ordered comparison `a < b`: false as soon as one side is `NaN`. -/
def lt : F32 → F32 → Bool
  | fin m1 e1, fin m2 e2 =>
      let e := min e1 e2
      decide (m1 * 2 ^ (e1 - e).toNat < m2 * 2 ^ (e2 - e).toNat)
  | fin _ _, pinf => true
  | ninf, fin _ _ => true
  | ninf, pinf => true
  | _, _ => false

/-- Natural power `pow(x, n)` as the rounded exact power. -/
def npow : F32 → Nat → F32
  | fin m e, n => ofDyadic (m ^ n) (e * n)
  | pinf, n => if n = 0 then fin 1 0 else pinf
  | ninf, n => if n = 0 then fin 1 0 else if n % 2 = 1 then ninf else pinf
  | nan, n => if n = 0 then fin 1 0 else nan

instance : Zero F32 := ⟨fin 0 0⟩
instance : One F32 := ⟨fin 1 0⟩
instance : Add F32 := ⟨add⟩
instance : Sub F32 := ⟨sub⟩
instance : Mul F32 := ⟨mul⟩
instance : Div F32 := ⟨div⟩
instance : HPow F32 Nat F32 := ⟨npow⟩
instance : LT F32 := ⟨fun a b => lt a b = true⟩
instance : DecidableRel (fun (a b : F32) => a < b) :=
  fun a b => inferInstanceAs (Decidable (lt a b = true))

end F32

/-! ## Vectors (`float3`) -/

/-- CUDA `float3` over the scalar type `α`. -/
structure float3 (α : Type) where
  x : α
  y : α
  z : α
deriving DecidableEq, Repr

section Code

variable {α : Type} [Zero α] [One α] [Add α] [Sub α] [Mul α] [Div α] [LT α]
  [DecidableRel (fun (a b : α) => a < b)] [DecidableEq α]

/-- Modelled from the spec: `make_float3(s)` of `programs/vec.hpp` (absent),
the vector with three equal components. -/
def make_float3 (s : α) : float3 α := ⟨s, s, s⟩

/-- Modelled from the spec: `dot(a, b)` of `programs/vec.hpp` (absent), the
scalar product, summed left to right. -/
def dot (a b : float3 α) : α := a.x * b.x + a.y * b.y + a.z * b.z

/-- Modelled from the spec: `operator-(float3, float3)` of `programs/vec.hpp`
(absent), componentwise. -/
def float3.sub (a b : float3 α) : float3 α := ⟨a.x - b.x, a.y - b.y, a.z - b.z⟩

/-- Modelled from the spec: `operator*(float3, float)` of `programs/vec.hpp`
(absent), componentwise. -/
def float3.mulS (a : float3 α) (s : α) : float3 α := ⟨a.x * s, a.y * s, a.z * s⟩

/-- Modelled from the spec: `operator*(float, float3)` of `programs/vec.hpp`
(absent), componentwise. -/
def float3.smul (s : α) (a : float3 α) : float3 α := ⟨s * a.x, s * a.y, s * a.z⟩

/-- Modelled from the spec: `length(v)` of `programs/vec.hpp` (absent), the
square root of `dot(v, v)`; `sqrt` is the square root of the arithmetic. -/
def length (sqrt : α → α) (v : float3 α) : α := sqrt (dot v v)

/-- Modelled from the spec: `unit_vector(v)` of `programs/vec.hpp` (absent),
the normalisation `v / length(v)`, componentwise.  The spec's words on
normalisation are that zero-length vectors are guarded before it: a vector
whose length is zero is not divided and is returned as it is. -/
def unit_vector (sqrt : α → α) (v : float3 α) : float3 α :=
  if length sqrt v = 0 then v
  else ⟨v.x / length sqrt v, v.y / length sqrt v, v.z / length sqrt v⟩

/-- The local `dt` of `refract` (material.h:34); `uvf` is the `unit_vector`
the code calls. -/
def refract_dt (uvf : float3 α → float3 α) (v n : float3 α) : α :=
  dot (uvf v) n

/-- The local `discriminant` of `refract` (material.h:35):
`1.0f - ni_over_nt * ni_over_nt * (1 - dt * dt)`. -/
def refract_discriminant (uvf : float3 α → float3 α) (v n : float3 α)
    (ni_over_nt : α) : α :=
  1 - ni_over_nt * ni_over_nt * (1 - refract_dt uvf v n * refract_dt uvf v n)

/-- Embedding of `refract` (material.h:32-43).  `uvf` and `sqrt` are the
`unit_vector` and `sqrt` the code calls.  The by-reference output is passed in
and returned: the result is the returned `bool` and the value of `refracted`
after the call. -/
def refract (uvf : float3 α → float3 α) (sqrt : α → α)
    (v n : float3 α) (ni_over_nt : α) (refracted : float3 α) : Bool × float3 α :=
  let uv := uvf v
  let dt := dot uv n
  let discriminant := 1 - ni_over_nt * ni_over_nt * (1 - dt * dt)
  if 0 < discriminant then
    (true, ((float3.smul ni_over_nt (uv.sub (n.mulS dt))).sub (n.mulS (sqrt discriminant))))
  else
    (false, refracted)

end Code

/-- Embedding of `schlick` (material.h:26-30); `pow(x, 5.0f)` is the fifth
power of the arithmetic. -/
def schlick {α : Type} [One α] [Add α] [Sub α] [Mul α] [Div α] [HPow α Nat α]
    (cosine ref_idx : α) : α :=
  let r0 := (1 - ref_idx) / (1 + ref_idx)
  let r0 := r0 * r0
  r0 + (1 - r0) * (1 - cosine) ^ 5

/-! ## Host random source -/

/-- The part of `<random>` that `rnd` uses (standard library, not in the
repository): the seeding constructor of `std::mt19937`, the constructor of
`std::uniform_real_distribution<float>` and its call operator, which advances
both objects and returns the drawn value. -/
structure StdRandom (G D α : Type) where
  mt19937 : Nat → G
  uniform_real_distribution : α → α → D
  call : D → G → α × D × G

/-- The function-local statics `gen` and `dis` of `rnd`
(host_common.hpp:58-59); `none` until the first call constructs them. -/
structure RndStatics (G D : Type) where
  gen : Option G
  dis : Option D

/-- State of the host process: the statics of `rnd`, and `env`, everything
else (inputs, `App_State`, files, environment). -/
structure Host (G D E : Type) where
  statics : RndStatics G D
  env : E

/-- A process that has not called `rnd` yet. -/
def Host.fresh {G D E : Type} (e : E) : Host G D E := ⟨⟨none, none⟩, e⟩

/-- Embedding of `rnd` (host_common.hpp:57-61) as a state transformer: the
statics are constructed on the first call, `gen` with seed `0` and `dis` over
`(0.f, 1.f)`, and `dis(gen)` is returned. -/
def rnd {G D E α : Type} [Zero α] [One α] (L : StdRandom G D α) (h : Host G D E) :
    α × Host G D E :=
  let gen := h.statics.gen.getD (L.mt19937 0)
  let dis := h.statics.dis.getD (L.uniform_real_distribution 0 1)
  let out := L.call dis gen
  (out.1, { h with statics := ⟨some out.2.2, some out.2.1⟩ })

/-- What the rest of the host program does next, chosen from its own state:
stop, call `rnd()` and continue with the returned value, or change its state
without calling `rnd`.  The statics of `rnd` are local to `rnd` and out of
reach of these steps. -/
inductive HostAction (E α : Type) where
  | halt
  | callRnd (k : α → E)
  | other (e : E)

/-- Run of a host program `prog` for at most `fuel` steps; the result is the
list of the values `rnd()` returned, in call order. -/
def runHost {G D E α : Type} [Zero α] [One α] (L : StdRandom G D α)
    (prog : E → HostAction E α) : Nat → Host G D E → List α
  | 0, _ => []
  | fuel + 1, h =>
    match prog h.env with
    | .halt => []
    | .callRnd k =>
      let out := rnd L h
      out.1 :: runHost L prog fuel { out.2 with env := k out.1 }
    | .other e => runHost L prog fuel { h with env := e }

/-- The pair `(dis, gen)` after `k` draws from freshly constructed statics. -/
def rndState {G D α : Type} [Zero α] [One α] (L : StdRandom G D α) : Nat → D × G
  | 0 => (L.uniform_real_distribution 0 1, L.mt19937 0)
  | k + 1 => (L.call (rndState L k).1 (rndState L k).2).2

/-- The value of the `k`-th call of `rnd()` in a process (counted from 0), as
a function of `k` alone. -/
def rndValue {G D α : Type} [Zero α] [One α] (L : StdRandom G D α) (k : Nat) : α :=
  (L.call (rndState L k).1 (rndState L k).2).1

/-- The statics of a process that has made `k` calls of `rnd`. -/
def Host.after {G D E α : Type} [Zero α] [One α] (L : StdRandom G D α) (k : Nat)
    (h : Host G D E) : Prop :=
  h.statics.dis.getD (L.uniform_real_distribution 0 1) = (rndState L k).1 ∧
  h.statics.gen.getD (L.mt19937 0) = (rndState L k).2

/-! ## Light registry -/

/-- Axis selector of `programs/vec.hpp` (absent), as used in scenes.hpp. -/
inductive Axis where
  | X_AXIS
  | Y_AXIS
  | Z_AXIS
deriving DecidableEq, Repr

/-- Modelled from the spec: `Rectangle_PDF` of `host_includes/pdfs.hpp`
(absent), the PDF factory of a rectangular light, holding its constructor
arguments: bounds `a0, a1, b0, b1`, plane offset `k`, axis. -/
structure Rectangle_PDF where
  a0 : ℚ
  a1 : ℚ
  b0 : ℚ
  b1 : ℚ
  k : ℚ
  axis : Axis
deriving DecidableEq, Repr

/-- Which callable of a PDF factory an OptiX program is. -/
inductive ProgramKind where
  | pdf
  | sample
deriving DecidableEq, Repr

/-- Modelled from the spec: an OptiX `Program` as the PDF factories of
`host_includes/pdfs.hpp` (absent) create it: a callable of kind `kind`, created
in the context `context` and bound to the geometry of the factory `source`. -/
structure Program (C : Type) where
  context : C
  kind : ProgramKind
  source : Rectangle_PDF
deriving DecidableEq, Repr

/-- Modelled from the spec: `Rectangle_PDF::createPDF(context)` of
`host_includes/pdfs.hpp` (absent). -/
def Rectangle_PDF.createPDF {C : Type} (p : Rectangle_PDF) (context : C) : Program C :=
  ⟨context, ProgramKind.pdf, p⟩

/-- Modelled from the spec: `Rectangle_PDF::createSample(context)` of
`host_includes/pdfs.hpp` (absent). -/
def Rectangle_PDF.createSample {C : Type} (p : Rectangle_PDF) (context : C) : Program C :=
  ⟨context, ProgramKind.sample, p⟩

/-- Embedding of `Light_Sampler` (host_common.hpp:63-66): three `std::vector`s. -/
structure Light_Sampler (C : Type) where
  sample : List (Program C)
  pdf : List (Program C)
  emissions : List (float3 ℚ)
deriving DecidableEq, Repr

/-- Embedding of `std::vector::push_back`: the element is appended at the end. -/
def push_back {β : Type} (v : List β) (x : β) : List β := v ++ [x]

/-- The default-constructed `Light_Sampler lights;`. -/
def Light_Sampler.init (C : Type) : Light_Sampler C := ⟨[], [], []⟩

/-- The `lights` that `InOneWeekend` hands to `setRayGenerationProgram`
(scenes.hpp:21-24). -/
def InOneWeekend.lights {C : Type} (_context : C) : Light_Sampler C :=
  let lights := Light_Sampler.init C
  lights

/-- The `lights` that `MovingSpheres` hands to `setRayGenerationProgram`
(scenes.hpp:99-106). -/
def MovingSpheres.lights {C : Type} (context : C) : Light_Sampler C :=
  let lights := Light_Sampler.init C
  let rect_pdf : Rectangle_PDF := ⟨3, 5, 1, 3, -1 / 2, Axis.Z_AXIS⟩
  let lights := { lights with pdf := push_back lights.pdf (rect_pdf.createPDF context) }
  let lights := { lights with sample := push_back lights.sample (rect_pdf.createSample context) }
  let lights := { lights with emissions := push_back lights.emissions (make_float3 4) }
  lights

/-- The `lights` that `Cornell` hands to `setRayGenerationProgram`
(scenes.hpp:192-204); the sphere light of lines 198-201 is commented out. -/
def Cornell.lights {C : Type} (context : C) : Light_Sampler C :=
  let lights := Light_Sampler.init C
  let rect_pdf : Rectangle_PDF := ⟨213, 343, 227, 332, 554, Axis.Y_AXIS⟩
  let lights := { lights with pdf := push_back lights.pdf (rect_pdf.createPDF context) }
  let lights := { lights with sample := push_back lights.sample (rect_pdf.createSample context) }
  let lights := { lights with emissions := push_back lights.emissions (make_float3 7) }
  lights

/-- The `lights` that `Final_Next_Week` hands to `setRayGenerationProgram`
(scenes.hpp:295-302). -/
def Final_Next_Week.lights {C : Type} (context : C) : Light_Sampler C :=
  let lights := Light_Sampler.init C
  let rect_pdf : Rectangle_PDF := ⟨113, 443, 127, 432, 554, Axis.Y_AXIS⟩
  let lights := { lights with pdf := push_back lights.pdf (rect_pdf.createPDF context) }
  let lights := { lights with sample := push_back lights.sample (rect_pdf.createSample context) }
  let lights := { lights with emissions := push_back lights.emissions (make_float3 7) }
  lights

/-- The `lights` that `Test_Scene` hands to `setRayGenerationProgram`
(scenes.hpp:410-413), before the model selection. -/
def Test_Scene.lights {C : Type} (_context : C) : Light_Sampler C :=
  let lights := Light_Sampler.init C
  lights

/-- The five scene builders of scenes.hpp. -/
inductive Scene where
  | InOneWeekend
  | MovingSpheres
  | Cornell
  | Final_Next_Week
  | Test_Scene
deriving DecidableEq, Repr

/-- The `Light_Sampler` a scene builder hands to `setRayGenerationProgram`. -/
def Scene.lights {C : Type} (context : C) : Scene → Light_Sampler C
  | Scene.InOneWeekend => InOneWeekend.lights context
  | Scene.MovingSpheres => MovingSpheres.lights context
  | Scene.Cornell => Cornell.lights context
  | Scene.Final_Next_Week => Final_Next_Week.lights context
  | Scene.Test_Scene => Test_Scene.lights context

/-! ## Saving the frame buffer (`main.cpp`) -/

/-- Embedding of `clamp` (main.cpp:32-34): `value > 1.0f ? 1.0f : value`. -/
def clamp {α : Type} [One α] [LT α] [DecidableRel (fun (a b : α) => a < b)] (value : α) : α :=
  if 1 < value then 1 else value

/-- The C++ conversion `int(x)` of a floating value: truncation towards zero. -/
def to_int {α : Type} [LinearOrderedField α] [FloorRing α] (x : α) : Int :=
  if 0 ≤ x then Int.floor x else Int.ceil x

/-- The C++ conversion of an `int` to `unsigned char`: reduction modulo `2^8`. -/
def to_uchar (i : Int) : Int := i % 256

/-- The `int` stored for one colour channel (main.cpp:155-163): the accumulated
value `s` is averaged over `samples` (converted to `float`), gamma corrected
with `sqrt`, clamped, scaled by `255.99` and converted to `int`. -/
def channel_int {α : Type} [LinearOrderedField α] [FloorRing α] (sqrt : α → α)
    (s : α) (samples : Int) : Int :=
  let col := s / (samples : α)
  let col := sqrt col
  to_int ((25599 / 100 : α) * clamp col)

/-- The byte written to `arr` for one colour channel (main.cpp:161-163): the
`int` of `channel_int` stored into an `unsigned char`. -/
def channel_byte {α : Type} [LinearOrderedField α] [FloorRing α] (sqrt : α → α)
    (s : α) (samples : Int) : Int :=
  to_uchar (channel_int sqrt s samples)

/-- A 32-bit `int`: the representative of `x` modulo `2^32` in
`[-2^31, 2^31)` (two's complement wrap-around). -/
def wrap32 (x : Int) : Int := (x + 2147483648) % 4294967296 - 2147483648

/-- Embedding of `int col_index = Nx * j + i;` (main.cpp:151) on 32-bit
`int`. -/
def col_index (Nx j i : Int) : Int := wrap32 (wrap32 (Nx * j) + i)

/-- Embedding of `int pixel_index = (Ny - j - 1) * 3 * Nx + 3 * i;`
(main.cpp:152) on 32-bit `int`, every operation wrapping. -/
def pixel_index (Nx Ny j i : Int) : Int :=
  wrap32 (wrap32 (wrap32 (wrap32 (wrap32 (Ny - j) - 1) * 3) * Nx) + wrap32 (3 * i))

/-- The number of bytes of `arr`, `Nx * Ny * 3 * sizeof(unsigned char)`
(main.cpp:146): the product is formed on 32-bit `int` and then converted to
the 64-bit unsigned `size_t`. -/
def arr_size (Nx Ny : Int) : Int := wrap32 (wrap32 (Nx * Ny) * 3) % 18446744073709551616

/-! ## Meshes of `Test_Scene` (`scenes.hpp`)

The builder is read with `float` as exact rationals. -/

/-- Modelled from the spec: the textures of `host_includes/textures.hpp`
(absent) with their constructor arguments: constant colour, checker of two
textures, image file, and noise with a scale and an optional axis. -/
inductive Texture where
  | Constant_Texture (color : float3 ℚ)
  | Checker_Texture (odd even : Texture)
  | Image_Texture (fileName : String)
  | Noise_Texture (scale : ℚ) (axis : Option Axis)
deriving Repr

/-- Modelled from the spec: the one-argument `Constant_Texture(float)` of
`host_includes/textures.hpp` (absent), the colour with three equal
components. -/
def Texture.gray (s : ℚ) : Texture := Texture.Constant_Texture (make_float3 s)

/-- Modelled from the spec: the materials of `host_includes/materials.hpp`
(absent) with their constructor arguments; the last argument of `Dielectric`
is optional in the source. -/
inductive BRDF where
  | Lambertian (t : Texture)
  | Metal (t : Texture) (fuzz : ℚ)
  | Dielectric (baseTex volTex : Texture) (ref_idx : ℚ) (density : Option ℚ)
  | Diffuse_Light (t : Texture)
  | Isotropic (t : Texture)
  | Oren_Nayar (t : Texture) (rough : ℚ)
  | Torrance_Sparrow (t : Texture) (nu nv : ℚ)
  | Ashikhmin_Shirley (diffuse specular : Texture) (nu nv : ℚ)
  | Normal_Shader (shading : Bool)
deriving Repr

/-- A transformation applied to a list or a mesh: `scale`, `rotate`,
`translate`. -/
inductive Transform where
  | scale (v : float3 ℚ)
  | rotate (degrees : ℚ) (axis : Axis)
  | translate (v : float3 ℚ)
deriving Repr

/-- Modelled from the spec: `Mesh` of `host_includes/mesh.hpp` (absent): the
file, its directory, the material given to the constructor (`none` for the
constructor without material, which takes the materials of the file), the
`RTX` flag and the transformations applied. -/
structure Mesh where
  fileName : String
  assetsFolder : String
  mat : Option BRDF
  RTX : Bool
  transforms : List Transform
deriving Repr

/-- Embedding of `Mesh::scale`. -/
def Mesh.scale (m : Mesh) (v : float3 ℚ) : Mesh :=
  { m with transforms := push_back m.transforms (Transform.scale v) }

/-- Embedding of `Mesh::rotate`. -/
def Mesh.rotate (m : Mesh) (degrees : ℚ) (axis : Axis) : Mesh :=
  { m with transforms := push_back m.transforms (Transform.rotate degrees axis) }

/-- Embedding of `Mesh::translate`. -/
def Mesh.translate (m : Mesh) (v : float3 ℚ) : Mesh :=
  { m with transforms := push_back m.transforms (Transform.translate v) }

/-- The meshes `Test_Scene` adds to the group for the value `model` of
`app.model` (scenes.hpp:452-532), in the order of the `if` chain. -/
def Test_Scene.meshes (model : Int) (RTX : Bool) : List Mesh :=
  let glass := Texture.Constant_Texture ⟨1 / 10, 603 / 1000, 3 / 10⟩
  let pWhiteTx := Texture.gray 1
  if model = 0 then
    let glassMt := BRDF.Dielectric glass pWhiteTx 1 (some 0)
    let model2 : Mesh := ⟨"bene.obj", "../../../assets/teapot/", some glassMt, RTX, []⟩
    let model2 := model2.scale (make_float3 100)
    let model2 := model2.rotate (-90) Axis.Y_AXIS
    let model2 := model2.translate ⟨80, -500, 80⟩
    [model2]
  else if model = 1 then
    let glassMt := BRDF.Dielectric glass pWhiteTx 1 (some 0)
    let m : Mesh := ⟨"Lucy1M.obj", "../../../assets/lucy/", some glassMt, RTX, []⟩
    let m := m.scale (make_float3 150)
    let m := m.translate ⟨0, -550, 0⟩
    [m]
  else if model = 2 then
    let m : Mesh := ⟨"dragon_cubic.obj", "../../../assets/dragon/", none, RTX, []⟩
    let m := m.scale (make_float3 350)
    let m := m.rotate 180 Axis.Y_AXIS
    let m := m.translate ⟨0, -500, 200⟩
    [m]
  else if model = 3 then
    []
  else if model = 4 then
    let m : Mesh := ⟨"pie.obj", "../../../assets/pie/", none, RTX, []⟩
    let m := m.scale (make_float3 150)
    let m := m.translate ⟨0, -550, 0⟩
    [m]
  else
    let m : Mesh := ⟨"sponza.obj", "../../../assets/sponza/", none, RTX, []⟩
    let m := m.scale (make_float3 (1 / 2))
    let m := m.rotate 90 Axis.Y_AXIS
    let m := m.translate ⟨300, 5, -400⟩
    [m]

/-! ## Camera of `Test_Scene` -/

/-- Modelled from the spec: the arguments of the `Camera` constructor of
`host_includes/camera.hpp` (absent), as scenes.hpp passes them. -/
structure Camera where
  lookfrom : float3 ℚ
  lookat : float3 ℚ
  up : float3 ℚ
  fovy : ℚ
  aspect : ℚ
  aperture : ℚ
  dist : ℚ
  t0 : ℚ
  t1 : ℚ
deriving DecidableEq, Repr

/-- The cameras on which `Test_Scene` calls `camera.set(app.context)`
(scenes.hpp:538-562), in order, for the values `model`, `W`, `H` of
`app.model`, `app.W`, `app.H`. -/
def Test_Scene.cameras (model W H : Int) : List Camera :=
  if 0 ≤ model ∧ model < 5 then
    let lookfrom : float3 ℚ := ⟨0, 10, -800⟩
    let lookat : float3 ℚ := ⟨0, 0, 0⟩
    let up : float3 ℚ := ⟨0, 1, 0⟩
    let fovy : ℚ := 100
    let aspect : ℚ := (W : ℚ) / (H : ℚ)
    let aperture : ℚ := 0
    let dist : ℚ := 4 / 5
    [⟨lookfrom, lookat, up, fovy, aspect, aperture, dist, 0, 1⟩]
  else if model = 5 then
    let lookfrom : float3 ℚ := ⟨278, 278, -800⟩
    let lookat : float3 ℚ := ⟨278, 278, 0⟩
    let up : float3 ℚ := ⟨0, 1, 0⟩
    let fovy : ℚ := 40
    let aspect : ℚ := (W : ℚ) / (H : ℚ)
    let aperture : ℚ := 0
    let dist : ℚ := 10
    [⟨lookfrom, lookat, up, fovy, aspect, aperture, dist, 0, 1⟩]
  else
    []

/-! ## Lemmas on vectors over the reals -/

section Real

/-- Splitting of a vector equality into components. -/
theorem float3.ext_iff3 {α : Type} (a b : float3 α) :
    a = b ↔ a.x = b.x ∧ a.y = b.y ∧ a.z = b.z := by
  cases a; cases b; simp

/-- A non-zero real vector has a positive squared length. -/
theorem dot_self_pos (v : float3 ℝ) (hv : v ≠ ⟨0, 0, 0⟩) : 0 < dot v v := by
  have h0 : 0 ≤ dot v v := by
    simp only [dot]; nlinarith [mul_self_nonneg v.x, mul_self_nonneg v.y, mul_self_nonneg v.z]
  rcases h0.lt_or_eq with h | h
  · exact h
  · exfalso; apply hv
    simp only [dot] at h
    have hx : v.x = 0 := by nlinarith [mul_self_nonneg v.x, mul_self_nonneg v.y, mul_self_nonneg v.z]
    have hy : v.y = 0 := by nlinarith [mul_self_nonneg v.x, mul_self_nonneg v.y, mul_self_nonneg v.z]
    have hz : v.z = 0 := by nlinarith [mul_self_nonneg v.x, mul_self_nonneg v.y, mul_self_nonneg v.z]
    rw [float3.ext_iff3]; exact ⟨hx, hy, hz⟩

/-- A non-zero real vector has a positive length. -/
theorem length_pos (v : float3 ℝ) (hv : v ≠ ⟨0, 0, 0⟩) : 0 < length Real.sqrt v :=
  Real.sqrt_pos.mpr (dot_self_pos v hv)

/-- The normalisation of a non-zero real vector has squared length one. -/
theorem dot_unit_vector_self (v : float3 ℝ) (hv : v ≠ ⟨0, 0, 0⟩) :
    dot (unit_vector Real.sqrt v) (unit_vector Real.sqrt v) = 1 := by
  have hL := length_pos v hv
  have hsq : length Real.sqrt v * length Real.sqrt v = dot v v :=
    Real.mul_self_sqrt (dot_self_pos v hv).le
  have hd : dot v v = v.x * v.x + v.y * v.y + v.z * v.z := rfl
  rw [unit_vector, if_neg hL.ne']
  simp only [dot]
  field_simp
  nlinarith [hsq, hd]

/-- The value `refract` leaves in `refracted` when it returns true. -/
theorem refract_eq_of_true (uvf : float3 ℝ → float3 ℝ) (s : ℝ → ℝ) (v n : float3 ℝ)
    (k : ℝ) (r : float3 ℝ) (h : (refract uvf s v n k r).1 = true) :
    0 < refract_discriminant uvf v n k ∧
    (refract uvf s v n k r).2 =
      (float3.smul k ((uvf v).sub (n.mulS (dot (uvf v) n)))).sub
        (n.mulS (s (refract_discriminant uvf v n k))) := by
  have hD : 0 < refract_discriminant uvf v n k := by
    by_contra hc
    simp only [refract_discriminant, refract_dt] at hc
    simp [refract, hc] at h
  refine ⟨hD, ?_⟩
  simp only [refract_discriminant, refract_dt] at hD ⊢
  simp only [refract]; rw [if_pos hD]

/-- Snell geometry of the refracted vector for any normalisation `uvf` that
yields a unit vector at `v`. -/
theorem snell_of_unit_direction (uvf : float3 ℝ → float3 ℝ) (v n : float3 ℝ) (k : ℝ) (r : float3 ℝ)
    (huu : dot (uvf v) (uvf v) = 1) (hn : dot n n = 1)
    (h : (refract uvf Real.sqrt v n k r).1 = true) :
    dot (refract uvf Real.sqrt v n k r).2 (refract uvf Real.sqrt v n k r).2 = 1 ∧
    ((refract uvf Real.sqrt v n k r).2).sub
        (n.mulS (dot (refract uvf Real.sqrt v n k r).2 n))
      = float3.smul k ((uvf v).sub (n.mulS (dot (uvf v) n))) ∧
    dot (refract uvf Real.sqrt v n k r).2 n
      = - Real.sqrt (refract_discriminant uvf v n k) := by
  obtain ⟨hD, hout⟩ := refract_eq_of_true uvf Real.sqrt v n k r h
  rw [hout]
  have hs : Real.sqrt (refract_discriminant uvf v n k) * Real.sqrt (refract_discriminant uvf v n k)
      = refract_discriminant uvf v n k := Real.mul_self_sqrt hD.le
  generalize Real.sqrt (refract_discriminant uvf v n k) = sD at hs
  simp only [refract_discriminant, refract_dt] at hs
  generalize uvf v = u at huu hs
  obtain ⟨ux, uy, uz⟩ := u
  obtain ⟨nx, ny, nz⟩ := n
  simp only [dot, float3.sub, float3.mulS, float3.smul, float3.mk.injEq] at *
  refine ⟨?_, ⟨?_, ?_, ?_⟩, ?_⟩
  · linear_combination k ^ 2 * huu + (k ^ 2 * (ux * nx + uy * ny + uz * nz) ^ 2
      + 2 * k * sD * (ux * nx + uy * ny + uz * nz) + sD ^ 2) * hn + hs
  · linear_combination (nx * (sD + k * (ux * nx + uy * ny + uz * nz))) * hn
  · linear_combination (ny * (sD + k * (ux * nx + uy * ny + uz * nz))) * hn
  · linear_combination (nz * (sD + k * (ux * nx + uy * ny + uz * nz))) * hn
  · linear_combination (-(k * (ux * nx + uy * ny + uz * nz) + sD)) * hn

/-- The normalisation of `(3, 0, -4)` is `(3/5, 0, -4/5)`. -/
theorem unit_vector_three_four :
    unit_vector Real.sqrt (⟨3, 0, -4⟩ : float3 ℝ) = ⟨3 / 5, 0, -4 / 5⟩ := by
  have hl : length Real.sqrt (⟨3, 0, -4⟩ : float3 ℝ) = 5 := by
    have h : dot (⟨3, 0, -4⟩ : float3 ℝ) ⟨3, 0, -4⟩ = 5 * 5 := by
      simp only [dot]; norm_num
    rw [length, h, Real.sqrt_mul_self (by norm_num)]
  rw [unit_vector, hl, if_neg (by norm_num)]
  simp

/-- The normalisation of `(0, 0, -1)` is the vector itself. -/
theorem unit_vector_down :
    unit_vector Real.sqrt (⟨0, 0, -1⟩ : float3 ℝ) = ⟨0, 0, -1⟩ := by
  simp [unit_vector, length, dot]

end Real

/-! ## Lemmas on the special values -/

section Special

variable {α : Type} [LinearOrderedField α]

/-- The literal `0` of the extended arithmetic. -/
theorem Flt.zero_def : (0 : Flt α) = Flt.fin 0 := rfl

end Special

/-! ## Lemmas on the host random source -/

section Rnd

variable {G D E α : Type} [Zero α] [One α]

/-- From a process that has made `k` calls, the values a run obtains are the
values number `k`, `k + 1`, ... of the stream. -/
theorem runHost_after (L : StdRandom G D α) (prog : E → HostAction E α) :
    ∀ (fuel k : Nat) (h : Host G D E), Host.after L k h →
      runHost L prog fuel h
        = (List.range (runHost L prog fuel h).length).map (fun i => rndValue L (k + i)) := by
  intro fuel
  induction fuel with
  | zero => intro k h _; simp [runHost]
  | succ fuel ih =>
    intro k h hk
    obtain ⟨hd, hg⟩ := hk
    cases hp : prog h.env with
    | halt => simp [runHost, hp]
    | callRnd c =>
      have hnext : Host.after L (k + 1)
          ({ (rnd L h).2 with env := c (rnd L h).1 } : Host G D E) := by
        simp only [Host.after, rnd, Option.getD_some, rndState, hd, hg, and_self]
      have hval : (rnd L h).1 = rndValue L k := by
        simp only [rnd, rndValue, hd, hg]
      have := ih (k + 1) _ hnext
      simp only [runHost, hp, List.length_cons, List.range_succ_eq_map, List.map_cons,
        List.map_map]
      rw [hval] at this ⊢
      refine congrArg₂ _ (by simp) ?_
      rw [this]
      simp only [List.length_map, List.length_range]
      apply List.map_congr_left
      intro i _
      simp only [Function.comp, Nat.add_assoc, Nat.add_comm 1 i, Nat.succ_eq_add_one]
    | other e =>
      have hnext : Host.after L k ({ h with env := e } : Host G D E) := ⟨hd, hg⟩
      have := ih k _ hnext
      simp only [runHost, hp]
      exact this

end Rnd

/-! ## Claims -/

/-- C1: `refract` tests the discriminant before the square root of its body.
For every `v`, `n`, `ni_over_nt` (and whatever `unit_vector` and `sqrt` are), it
returns true exactly when the discriminant is positive; when the discriminant
is negative it returns false and leaves `refracted` as it was; and its result
does not depend on `sqrt` outside the strictly positive arguments, the only
ones `sqrt` is applied to. -/
theorem refract_true_iff_discriminant_pos (uvf : float3 ℝ → float3 ℝ) (s : ℝ → ℝ)
    (v n : float3 ℝ) (k : ℝ) (r : float3 ℝ) :
    ((refract uvf s v n k r).1 = true ↔ 0 < refract_discriminant uvf v n k) ∧
    (refract_discriminant uvf v n k < 0 → refract uvf s v n k r = (false, r)) ∧
    (∀ s2 : ℝ → ℝ, (∀ x, 0 < x → s2 x = s x) →
      refract uvf s2 v n k r = refract uvf s v n k r) := by
  refine ⟨?_, ?_, ?_⟩
  · simp only [refract, refract_discriminant, refract_dt]
    split <;> simp_all
  · intro h
    have h2 : ¬ 0 < refract_discriminant uvf v n k := not_lt.mpr h.le
    simp only [refract_discriminant, refract_dt] at h2
    simp only [refract]
    rw [if_neg h2]
  · intro s2 hs
    simp only [refract]
    split
    · rename_i h; rw [hs _ h]
    · rfl

/-- Witness of C1 at `v = (0, 0, -1)`, `n = (0, 0, 1)`, `ni_over_nt = 2`: the
discriminant is `1`, and `refract` returns true. -/
theorem refract_true_iff_discriminant_pos_witness :
    refract_discriminant (unit_vector Real.sqrt) (⟨0, 0, -1⟩ : float3 ℝ) ⟨0, 0, 1⟩ 2 = 1 ∧
    (refract (unit_vector Real.sqrt) Real.sqrt (⟨0, 0, -1⟩ : float3 ℝ) ⟨0, 0, 1⟩ 2
      ⟨0, 0, 0⟩).1 = true := by
  have hD : refract_discriminant (unit_vector Real.sqrt) (⟨0, 0, -1⟩ : float3 ℝ)
      ⟨0, 0, 1⟩ 2 = 1 := by
    simp [refract_discriminant, refract_dt, unit_vector_down, dot]
  refine ⟨hD, ?_⟩
  apply (refract_true_iff_discriminant_pos (unit_vector Real.sqrt) Real.sqrt
    ⟨0, 0, -1⟩ ⟨0, 0, 1⟩ 2 ⟨0, 0, 0⟩).1.mpr
  rw [hD]; exact one_pos

/-- C2, amended: Snell direction in exact real arithmetic (rounding, overflow
and underflow of `float` set aside).  For every non-zero `v`, unit normal `n` and
`ni_over_nt` for which `refract` returns true, the refracted vector has length
one, its component perpendicular to `n` is `ni_over_nt` times the component of
`unit_vector(v)` perpendicular to `n`, and its component along `n` is
`-sqrt(1 - ni_over_nt^2 * (1 - dt^2))` with `dt = dot(unit_vector(v), n)`. -/
theorem refract_snell (v n : float3 ℝ) (k : ℝ) (r : float3 ℝ)
    (hv : v ≠ ⟨0, 0, 0⟩) (hn : dot n n = 1)
    (h : (refract (unit_vector Real.sqrt) Real.sqrt v n k r).1 = true) :
    length Real.sqrt (refract (unit_vector Real.sqrt) Real.sqrt v n k r).2 = 1 ∧
    ((refract (unit_vector Real.sqrt) Real.sqrt v n k r).2).sub
        (n.mulS (dot (refract (unit_vector Real.sqrt) Real.sqrt v n k r).2 n))
      = float3.smul k ((unit_vector Real.sqrt v).sub
          (n.mulS (dot (unit_vector Real.sqrt v) n))) ∧
    dot (refract (unit_vector Real.sqrt) Real.sqrt v n k r).2 n
      = - Real.sqrt (1 - k ^ 2 * (1 - (dot (unit_vector Real.sqrt v) n) ^ 2)) := by
  obtain ⟨h1, h2, h3⟩ := snell_of_unit_direction (unit_vector Real.sqrt) v n k r
    (dot_unit_vector_self v hv) hn h
  refine ⟨?_, h2, ?_⟩
  · simp only [length]; rw [h1]; exact Real.sqrt_one
  · rw [h3]; simp only [refract_discriminant, refract_dt]; ring_nf

/-- Witness of the amended C2 at oblique incidence: `v = (3, 0, -4)`,
`n = (0, 0, 1)`, `ni_over_nt = 1/2`, where `unit_vector(v) = (3/5, 0, -4/5)` and
the perpendicular part of the refracted vector is `(3/10, 0, 0)`. -/
theorem refract_snell_witness :
    (⟨3, 0, -4⟩ : float3 ℝ) ≠ ⟨0, 0, 0⟩ ∧ dot (⟨0, 0, 1⟩ : float3 ℝ) ⟨0, 0, 1⟩ = 1 ∧
    (refract (unit_vector Real.sqrt) Real.sqrt (⟨3, 0, -4⟩ : float3 ℝ) ⟨0, 0, 1⟩ (1 / 2)
      ⟨0, 0, 0⟩).1 = true ∧
    ((refract (unit_vector Real.sqrt) Real.sqrt (⟨3, 0, -4⟩ : float3 ℝ) ⟨0, 0, 1⟩ (1 / 2)
        ⟨0, 0, 0⟩).2).sub
        (float3.mulS ⟨0, 0, 1⟩ (dot (refract (unit_vector Real.sqrt) Real.sqrt
          (⟨3, 0, -4⟩ : float3 ℝ) ⟨0, 0, 1⟩ (1 / 2) ⟨0, 0, 0⟩).2 ⟨0, 0, 1⟩))
      = ⟨3 / 10, 0, 0⟩ := by
  have hv : (⟨3, 0, -4⟩ : float3 ℝ) ≠ ⟨0, 0, 0⟩ := by
    intro h; rw [float3.ext_iff3] at h; norm_num at h
  have hn : dot (⟨0, 0, 1⟩ : float3 ℝ) ⟨0, 0, 1⟩ = 1 := by simp [dot]
  have ht : (refract (unit_vector Real.sqrt) Real.sqrt (⟨3, 0, -4⟩ : float3 ℝ) ⟨0, 0, 1⟩
      (1 / 2) ⟨0, 0, 0⟩).1 = true := by
    simp only [refract, unit_vector_three_four, dot]
    norm_num
  refine ⟨hv, hn, ht, ?_⟩
  rw [(refract_snell ⟨3, 0, -4⟩ ⟨0, 0, 1⟩ (1 / 2) ⟨0, 0, 0⟩ hv hn ht).2.1, unit_vector_three_four]
  simp only [dot, float3.sub, float3.mulS, float3.smul, float3.mk.injEq]
  norm_num

/-- C3, amended: in exact real arithmetic (rounding of `float` set aside),
with `ni_over_nt = 1`, for every non-zero `v` and unit normal `n`
facing the incoming ray (`dot(unit_vector(v), n) < 0`), `refract` returns true
and sets `refracted` to `unit_vector(v)`. -/
theorem refract_equal_index_straight (v n : float3 ℝ) (r : float3 ℝ)
    (_hv : v ≠ ⟨0, 0, 0⟩) (_hn : dot n n = 1)
    (hd : dot (unit_vector Real.sqrt v) n < 0) :
    refract (unit_vector Real.sqrt) Real.sqrt v n 1 r = (true, unit_vector Real.sqrt v) := by
  have hD : refract_discriminant (unit_vector Real.sqrt) v n 1
      = dot (unit_vector Real.sqrt v) n * dot (unit_vector Real.sqrt v) n := by
    simp only [refract_discriminant, refract_dt]; ring
  have hpos : 0 < refract_discriminant (unit_vector Real.sqrt) v n 1 := by
    rw [hD]; exact mul_pos_of_neg_of_neg hd hd
  have hs : Real.sqrt (refract_discriminant (unit_vector Real.sqrt) v n 1)
      = - dot (unit_vector Real.sqrt v) n := by
    rw [hD, Real.sqrt_mul_self_eq_abs, abs_of_neg hd]
  have hpos2 := hpos
  simp only [refract_discriminant, refract_dt] at hpos2 hs
  simp only [refract]
  rw [if_pos hpos2, hs]
  generalize unit_vector Real.sqrt v = u
  obtain ⟨ux, uy, uz⟩ := u
  obtain ⟨nx, ny, nz⟩ := n
  simp only [dot, float3.sub, float3.mulS, float3.smul, float3.mk.injEq, Prod.mk.injEq, true_and]
  refine ⟨?_, ?_, ?_⟩ <;> ring

/-- Witness of C3 at `v = (0, 0, -1)`, `n = (0, 0, 1)`. -/
theorem refract_equal_index_straight_witness :
    (⟨0, 0, -1⟩ : float3 ℝ) ≠ ⟨0, 0, 0⟩ ∧ dot (⟨0, 0, 1⟩ : float3 ℝ) ⟨0, 0, 1⟩ = 1 ∧
    dot (unit_vector Real.sqrt (⟨0, 0, -1⟩ : float3 ℝ)) ⟨0, 0, 1⟩ < 0 ∧
    refract (unit_vector Real.sqrt) Real.sqrt (⟨0, 0, -1⟩ : float3 ℝ) ⟨0, 0, 1⟩ 1 ⟨5, 5, 5⟩
      = (true, unit_vector Real.sqrt ⟨0, 0, -1⟩) := by
  have hv : (⟨0, 0, -1⟩ : float3 ℝ) ≠ ⟨0, 0, 0⟩ := by
    intro h; rw [float3.ext_iff3] at h; norm_num at h
  have hn : dot (⟨0, 0, 1⟩ : float3 ℝ) ⟨0, 0, 1⟩ = 1 := by simp [dot]
  have hd : dot (unit_vector Real.sqrt (⟨0, 0, -1⟩ : float3 ℝ)) ⟨0, 0, 1⟩ < 0 := by
    simp [unit_vector_down, dot]
  exact ⟨hv, hn, hd, refract_equal_index_straight ⟨0, 0, -1⟩ ⟨0, 0, 1⟩ ⟨5, 5, 5⟩ hv hn hd⟩

/-- C4, as stated, fails: at the cosine `0`, which lies in `[0, 1]`,
`schlick(0, 1) = 1`, not `0`. -/
theorem schlick_grazing_reflects_at_equal_index :
    (0 : ℝ) ≤ 0 ∧ (0 : ℝ) ≤ 1 ∧ schlick (0 : ℝ) 1 = 1 ∧ schlick (0 : ℝ) 1 ≠ 0 := by
  have he : schlick (0 : ℝ) 1 = 1 := by simp [schlick]
  refine ⟨le_refl _, zero_le_one, he, ?_⟩
  rw [he]; exact one_ne_zero

/-- C4, amended: for every cosine in `[0, 1]`, `schlick(cosine, 1)` is
`(1 - cosine)^5` (the term `r0` is zero); it lies in `[0, 1]` and is zero
exactly at normal incidence, `cosine = 1`. -/
theorem schlick_ior_one (c : ℝ) (h0 : 0 ≤ c) (h1 : c ≤ 1) :
    schlick c 1 = (1 - c) ^ 5 ∧ (schlick c 1 = 0 ↔ c = 1) ∧
    0 ≤ schlick c 1 ∧ schlick c 1 ≤ 1 := by
  have he : schlick c 1 = (1 - c) ^ 5 := by simp [schlick]
  have ht0 : 0 ≤ 1 - c := by linarith
  have ht1 : 1 - c ≤ 1 := by linarith
  refine ⟨he, ?_, ?_, ?_⟩
  · rw [he]
    constructor
    · intro h
      have h5 : 1 - c = 0 := pow_eq_zero_iff (by norm_num) |>.mp h
      linarith
    · intro h; rw [h]; norm_num
  · rw [he]; exact pow_nonneg ht0 5
  · rw [he]; exact pow_le_one₀ ht0 ht1

/-- Witness of the amended C4 at `cosine = 1/2`. -/
theorem schlick_ior_one_witness :
    (0 : ℝ) ≤ 1 / 2 ∧ (1 / 2 : ℝ) ≤ 1 ∧ schlick (1 / 2 : ℝ) 1 = (1 - 1 / 2) ^ 5 :=
  ⟨by norm_num, by norm_num, (schlick_ior_one (1 / 2) (by norm_num) (by norm_num)).1⟩

/-- C5: at normal incidence with `ior = 1` the Schlick reflectance is zero,
`schlick(1, 1) = 0`, in every field of scalars. -/
theorem schlick_normal_incidence_ior_one {α : Type} [Field α] : schlick (1 : α) 1 = 0 := by
  simp [schlick]

/-- C6: for every cosine in `[0, 1]` and every `ref_idx > 0`, with
`r0 = ((1 - ref_idx)/(1 + ref_idx))^2`, `schlick(cosine, ref_idx)` is
`r0 + (1 - r0)*(1 - cosine)^5` and `0 <= r0 <= schlick(cosine, ref_idx) <= 1`. -/
theorem schlick_is_probability (c ref_idx : ℝ) (h0 : 0 ≤ c) (h1 : c ≤ 1) (hr : 0 < ref_idx) :
    schlick c ref_idx
      = ((1 - ref_idx) / (1 + ref_idx)) ^ 2
        + (1 - ((1 - ref_idx) / (1 + ref_idx)) ^ 2) * (1 - c) ^ 5 ∧
    0 ≤ ((1 - ref_idx) / (1 + ref_idx)) ^ 2 ∧
    ((1 - ref_idx) / (1 + ref_idx)) ^ 2 ≤ schlick c ref_idx ∧
    schlick c ref_idx ≤ 1 := by
  have he : schlick c ref_idx
      = ((1 - ref_idx) / (1 + ref_idx)) ^ 2
        + (1 - ((1 - ref_idx) / (1 + ref_idx)) ^ 2) * (1 - c) ^ 5 := by
    simp only [schlick]; ring
  have hq : ((1 - ref_idx) / (1 + ref_idx)) ^ 2 ≤ 1 := by
    have hp : 0 < 1 + ref_idx := by linarith
    rw [div_pow, div_le_one (by positivity)]
    nlinarith
  have ht0 : 0 ≤ (1 - c) ^ 5 := pow_nonneg (by linarith) 5
  have ht1 : (1 - c) ^ 5 ≤ 1 := pow_le_one₀ (by linarith) (by linarith)
  refine ⟨he, sq_nonneg _, ?_, ?_⟩
  · rw [he]; nlinarith
  · rw [he]; nlinarith

/-- Witness of C6 at `cosine = 0`, `ref_idx = 3/2`: the value is at most one. -/
theorem schlick_is_probability_witness :
    (0 : ℝ) ≤ 0 ∧ (0 : ℝ) ≤ 1 ∧ (0 : ℝ) < 3 / 2 ∧ schlick (0 : ℝ) (3 / 2) ≤ 1 :=
  ⟨le_refl _, zero_le_one, by norm_num,
    (schlick_is_probability 0 (3 / 2) (le_refl _) zero_le_one (by norm_num)).2.2.2⟩

/-- C9: `rnd` is reproducible.  Whatever the host program and its inputs and
environment are, the values `rnd()` returns in a fresh process are
`rndValue 0, rndValue 1, ...`, the stream of the generator seeded with `0`, so
the `k`-th value depends on `k` only; and two runs that make the same number
of calls obtain the same sequence. -/
theorem rnd_reproducible {G D E α : Type} [Zero α] [One α] (L : StdRandom G D α)
    (prog1 prog2 : E → HostAction E α) (fuel1 fuel2 : Nat) (e1 e2 : E) :
    runHost L prog1 fuel1 (Host.fresh e1)
      = (List.range (runHost L prog1 fuel1 (Host.fresh e1)).length).map (rndValue L) ∧
    ((runHost L prog1 fuel1 (Host.fresh e1)).length
        = (runHost L prog2 fuel2 (Host.fresh e2)).length →
      runHost L prog1 fuel1 (Host.fresh e1) = runHost L prog2 fuel2 (Host.fresh e2)) := by
  have hf : ∀ e : E, Host.after L 0 (Host.fresh e : Host G D E) := fun e => ⟨rfl, rfl⟩
  have h1 := runHost_after L prog1 fuel1 0 _ (hf e1)
  have h2 := runHost_after L prog2 fuel2 0 _ (hf e2)
  simp only [Nat.zero_add] at h1 h2
  refine ⟨h1, ?_⟩
  intro hlen
  rw [h1, h2, hlen]

/-- C10: in every scene builder, the `Light_Sampler` handed to
`setRayGenerationProgram` has three vectors of the same length, and they are
the three projections of one list of (PDF factory, emission) pairs: entry `i`
of `pdf` and of `sample` are the two programs of the same factory, and entry
`i` of `emissions` is the emission registered with it. -/
theorem light_registry_parallel {C : Type} (context : C) (sc : Scene) :
    (Scene.lights context sc).sample.length = (Scene.lights context sc).pdf.length ∧
    (Scene.lights context sc).pdf.length = (Scene.lights context sc).emissions.length ∧
    ∃ registry : List (Rectangle_PDF × float3 ℚ),
      (Scene.lights context sc).pdf = registry.map (fun l => l.1.createPDF context) ∧
      (Scene.lights context sc).sample = registry.map (fun l => l.1.createSample context) ∧
      (Scene.lights context sc).emissions = registry.map (fun l => l.2) := by
  cases sc
  · exact ⟨rfl, rfl, [], rfl, rfl, rfl⟩
  · exact ⟨rfl, rfl, [(⟨3, 5, 1, 3, -1 / 2, Axis.Z_AXIS⟩, make_float3 4)], rfl, rfl, rfl⟩
  · exact ⟨rfl, rfl, [(⟨213, 343, 227, 332, 554, Axis.Y_AXIS⟩, make_float3 7)], rfl, rfl, rfl⟩
  · exact ⟨rfl, rfl, [(⟨113, 443, 127, 432, 554, Axis.Y_AXIS⟩, make_float3 7)], rfl, rfl, rfl⟩
  · exact ⟨rfl, rfl, [], rfl, rfl, rfl⟩

/-- Scaling a non-zero real vector by a positive factor does not change its
normalisation. -/
theorem unit_vector_smul (k : ℝ) (hk : 0 < k) (v : float3 ℝ) (hv : v ≠ ⟨0, 0, 0⟩) :
    unit_vector Real.sqrt (float3.smul k v) = unit_vector Real.sqrt v := by
  have hl : length Real.sqrt (float3.smul k v) = k * length Real.sqrt v := by
    simp only [length, dot, float3.smul]
    have : k * v.x * (k * v.x) + k * v.y * (k * v.y) + k * v.z * (k * v.z)
        = k ^ 2 * (v.x * v.x + v.y * v.y + v.z * v.z) := by ring
    rw [this, Real.sqrt_mul (sq_nonneg k), Real.sqrt_sq hk.le]
  have hL := length_pos v hv
  have hkL : k * length Real.sqrt v ≠ 0 := (mul_pos hk hL).ne'
  rw [unit_vector, unit_vector, hl, if_neg hkL, if_neg hL.ne']
  simp only [float3.smul, float3.mk.injEq]
  have hk0 : k ≠ 0 := hk.ne'
  refine ⟨?_, ?_, ?_⟩ <;> exact mul_div_mul_left _ _ hk0

/-- Cauchy-Schwarz for two real unit vectors: the square of their scalar
product is at most one. -/
theorem dot_sq_le_one (u n : float3 ℝ) (hu : dot u u = 1) (hn : dot n n = 1) :
    dot u n * dot u n ≤ 1 := by
  obtain ⟨ux, uy, uz⟩ := u
  obtain ⟨nx, ny, nz⟩ := n
  simp only [dot] at *
  nlinarith [sq_nonneg (ux * ny - uy * nx), sq_nonneg (ux * nz - uz * nx),
    sq_nonneg (uy * nz - uz * ny), mul_comm ux nx]

/-- C12, amended: in exact real arithmetic (rounding and overflow of `float`
set aside) `refract` does not need a normalised incoming direction.  For every
non-zero `v`, every `n`, `ni_over_nt`, prior `refracted` and every scale
`k > 0`, `refract(k*v, n, ni_over_nt, .)` returns the same boolean and leaves
the same `refracted` as `refract(v, n, ni_over_nt, .)`. -/
theorem refract_scale_invariant (v n : float3 ℝ) (ni_over_nt k : ℝ) (r : float3 ℝ)
    (hv : v ≠ ⟨0, 0, 0⟩) (hk : 0 < k) :
    refract (unit_vector Real.sqrt) Real.sqrt (float3.smul k v) n ni_over_nt r
      = refract (unit_vector Real.sqrt) Real.sqrt v n ni_over_nt r := by
  simp only [refract, unit_vector_smul k hk v hv]

/-- Witness of C12 at `v = (0, 0, -1)`, `k = 2`, `n = (0, 0, 1)`,
`ni_over_nt = 1/2`. -/
theorem refract_scale_invariant_witness :
    (⟨0, 0, -1⟩ : float3 ℝ) ≠ ⟨0, 0, 0⟩ ∧ (0 : ℝ) < 2 ∧
    refract (unit_vector Real.sqrt) Real.sqrt (float3.smul 2 (⟨0, 0, -1⟩ : float3 ℝ))
        ⟨0, 0, 1⟩ (1 / 2) ⟨0, 0, 0⟩
      = refract (unit_vector Real.sqrt) Real.sqrt (⟨0, 0, -1⟩ : float3 ℝ)
        ⟨0, 0, 1⟩ (1 / 2) ⟨0, 0, 0⟩ := by
  have hv : (⟨0, 0, -1⟩ : float3 ℝ) ≠ ⟨0, 0, 0⟩ := by
    intro h; rw [float3.ext_iff3] at h; norm_num at h
  exact ⟨hv, two_pos, refract_scale_invariant ⟨0, 0, -1⟩ ⟨0, 0, 1⟩ (1 / 2) 2 ⟨0, 0, 0⟩ hv two_pos⟩

/-- C13: no total internal reflection into an optically denser medium.  For
every non-zero `v`, every unit normal `n` and every `ni_over_nt` with
`|ni_over_nt| < 1`, `refract` returns true. -/
theorem refract_true_of_abs_lt_one (v n : float3 ℝ) (ni_over_nt : ℝ) (r : float3 ℝ)
    (hv : v ≠ ⟨0, 0, 0⟩) (hn : dot n n = 1) (hk : |ni_over_nt| < 1) :
    (refract (unit_vector Real.sqrt) Real.sqrt v n ni_over_nt r).1 = true := by
  have hdt := dot_sq_le_one (unit_vector Real.sqrt v) n (dot_unit_vector_self v hv) hn
  have hk2 : ni_over_nt * ni_over_nt < 1 := by
    have h := abs_lt.mp hk
    nlinarith [h.1, h.2]
  have hk0 : 0 ≤ ni_over_nt * ni_over_nt := mul_self_nonneg _
  have hdt0 : 0 ≤ dot (unit_vector Real.sqrt v) n * dot (unit_vector Real.sqrt v) n :=
    mul_self_nonneg _
  have hD : 0 < 1 - ni_over_nt * ni_over_nt
      * (1 - dot (unit_vector Real.sqrt v) n * dot (unit_vector Real.sqrt v) n) := by
    nlinarith
  simp only [refract]
  rw [if_pos hD]

/-- Witness of C13 at oblique incidence: `v = (3, 0, -4)`, `n = (0, 0, 1)`,
`ni_over_nt = 1/2`. -/
theorem refract_true_of_abs_lt_one_witness :
    (⟨3, 0, -4⟩ : float3 ℝ) ≠ ⟨0, 0, 0⟩ ∧ dot (⟨0, 0, 1⟩ : float3 ℝ) ⟨0, 0, 1⟩ = 1 ∧
    |(1 / 2 : ℝ)| < 1 ∧
    (refract (unit_vector Real.sqrt) Real.sqrt (⟨3, 0, -4⟩ : float3 ℝ) ⟨0, 0, 1⟩ (1 / 2)
      ⟨0, 0, 0⟩).1 = true := by
  have hv : (⟨3, 0, -4⟩ : float3 ℝ) ≠ ⟨0, 0, 0⟩ := by
    intro h; rw [float3.ext_iff3] at h; norm_num at h
  have hn : dot (⟨0, 0, 1⟩ : float3 ℝ) ⟨0, 0, 1⟩ = 1 := by simp [dot]
  have hk : |(1 / 2 : ℝ)| < 1 := by
    rw [abs_of_pos (by norm_num)]; norm_num
  exact ⟨hv, hn, hk, refract_true_of_abs_lt_one ⟨3, 0, -4⟩ ⟨0, 0, 1⟩ (1 / 2) ⟨0, 0, 0⟩ hv hn hk⟩

/-- C14, amended: in exact real arithmetic (rounding of `float` set aside) the
Schlick reflectance is the same from both sides of an interface.  For every
cosine and every `ref_idx > 0`,
`schlick(cosine, ref_idx) = schlick(cosine, 1/ref_idx)`. -/
theorem schlick_reciprocal_index (c ref_idx : ℝ) (hr : 0 < ref_idx) :
    schlick c ref_idx = schlick c (1 / ref_idx) := by
  have h1 : ref_idx ≠ 0 := hr.ne'
  have h2 : 1 + ref_idx ≠ 0 := by linarith
  have h4 : 1 + 1 / ref_idx ≠ 0 := by
    have : 0 < 1 / ref_idx := one_div_pos.mpr hr
    linarith
  have hq : (1 - 1 / ref_idx) / (1 + 1 / ref_idx) = -((1 - ref_idx) / (1 + ref_idx)) := by
    have hx : 1 / ref_idx * ref_idx = 1 := one_div_mul_cancel h1
    rw [← neg_div, div_eq_div_iff h4 h2]
    linear_combination (-2) * hx
  simp only [schlick, hq]
  ring

/-- Witness of C14 at `cosine = 1/2`, `ref_idx = 3/2`. -/
theorem schlick_reciprocal_index_witness :
    (0 : ℝ) < 3 / 2 ∧ schlick (1 / 2 : ℝ) (3 / 2) = schlick (1 / 2 : ℝ) (1 / (3 / 2)) :=
  ⟨by norm_num, schlick_reciprocal_index (1 / 2) (3 / 2) (by norm_num)⟩

/-- A value in the range of `int` is not changed by the wrap-around. -/
theorem wrap32_id (x : Int) (h0 : -2147483648 ≤ x) (h1 : x < 2147483648) : wrap32 x = x := by
  unfold wrap32
  rw [Int.emod_eq_of_lt (by linarith) (by linarith)]
  ring

/-- Without overflow, `pixel_index` and `col_index` are the integer
expressions of the source and stay inside the two arrays. -/
theorem index_exact (Nx Ny i j : Int) (hb : 3 * Nx * Ny < 2147483648)
    (hi0 : 0 ≤ i) (hi : i < Nx) (hj0 : 0 ≤ j) (hj : j < Ny) :
    pixel_index Nx Ny j i = (Ny - j - 1) * 3 * Nx + 3 * i ∧
    0 ≤ pixel_index Nx Ny j i ∧ pixel_index Nx Ny j i + 2 < 3 * Nx * Ny ∧
    col_index Nx j i = Nx * j + i ∧
    0 ≤ col_index Nx j i ∧ col_index Nx j i < Nx * Ny := by
  have hNx : 0 < Nx := by linarith
  have hNy : 0 < Ny := by linarith
  have hNxNy : Nx ≤ Nx * Ny := by nlinarith
  have hNyNx : Ny ≤ Nx * Ny := by nlinarith
  have e1 : wrap32 (Ny - j) = Ny - j := wrap32_id _ (by linarith) (by nlinarith)
  have e2 : wrap32 (Ny - j - 1) = Ny - j - 1 := wrap32_id _ (by linarith) (by nlinarith)
  have e3 : wrap32 ((Ny - j - 1) * 3) = (Ny - j - 1) * 3 :=
    wrap32_id _ (by nlinarith) (by nlinarith)
  have hrow : (Ny - j - 1) * 3 * Nx + 3 * Nx ≤ 3 * Nx * Ny := by nlinarith
  have hrow0 : 0 ≤ (Ny - j - 1) * 3 * Nx := by
    have : 0 ≤ (Ny - j - 1) := by linarith
    positivity
  have e4 : wrap32 ((Ny - j - 1) * 3 * Nx) = (Ny - j - 1) * 3 * Nx :=
    wrap32_id _ (by linarith) (by nlinarith)
  have e5 : wrap32 (3 * i) = 3 * i := wrap32_id _ (by linarith) (by nlinarith)
  have e6 : wrap32 ((Ny - j - 1) * 3 * Nx + 3 * i) = (Ny - j - 1) * 3 * Nx + 3 * i :=
    wrap32_id _ (by linarith) (by nlinarith)
  have hp : pixel_index Nx Ny j i = (Ny - j - 1) * 3 * Nx + 3 * i := by
    simp only [pixel_index, e1, e2, e3, e4, e5, e6]
  have hc0 : 0 ≤ Nx * j := by positivity
  have hc1 : Nx * j + Nx ≤ Nx * Ny := by nlinarith
  have e7 : wrap32 (Nx * j) = Nx * j := wrap32_id _ (by linarith) (by nlinarith)
  have e8 : wrap32 (Nx * j + i) = Nx * j + i := wrap32_id _ (by linarith) (by nlinarith)
  have hc : col_index Nx j i = Nx * j + i := by
    simp only [col_index, e7, e8]
  refine ⟨hp, ?_, ?_, hc, ?_, ?_⟩
  · rw [hp]; linarith
  · rw [hp]; linarith
  · rw [hc]; linarith
  · rw [hc]; linarith

/-- C15: colour values are clamped and converted to `0..255` when saving.
`clamp(x) = min(x, 1)` for every `x`, and for every accumulated channel value
`s >= 0` and `samples > 0` the value `int(255.99 * clamp(sqrt(s / samples)))`
lies in `0..255`, so that the byte stored in the `unsigned char` is that
value, without wrap-around. -/
theorem channel_byte_in_range (x s : ℝ) (samples : Int) (_hs : 0 ≤ s) (_hn : 0 < samples) :
    clamp x = min x 1 ∧
    0 ≤ channel_int Real.sqrt s samples ∧ channel_int Real.sqrt s samples ≤ 255 ∧
    channel_byte Real.sqrt s samples = channel_int Real.sqrt s samples := by
  have hclamp : ∀ y : ℝ, clamp y = min y 1 := by
    intro y
    simp only [clamp]
    split
    · rename_i h; exact (min_eq_right h.le).symm
    · rename_i h; exact (min_eq_left (not_lt.mp h)).symm
  have hc0 : 0 ≤ clamp (Real.sqrt (s / (samples : ℝ))) := by
    rw [hclamp]; exact le_min (Real.sqrt_nonneg _) zero_le_one
  have hc1 : clamp (Real.sqrt (s / (samples : ℝ))) ≤ 1 := by
    rw [hclamp]; exact min_le_right _ _
  have hx0 : 0 ≤ (25599 / 100 : ℝ) * clamp (Real.sqrt (s / (samples : ℝ))) := by positivity
  have hx1 : (25599 / 100 : ℝ) * clamp (Real.sqrt (s / (samples : ℝ))) < 256 := by nlinarith
  have hi : channel_int Real.sqrt s samples
      = Int.floor ((25599 / 100 : ℝ) * clamp (Real.sqrt (s / (samples : ℝ)))) := by
    simp only [channel_int, to_int]; rw [if_pos hx0]
  have h0 : 0 ≤ channel_int Real.sqrt s samples := by
    rw [hi]; exact Int.floor_nonneg.mpr hx0
  have h1 : channel_int Real.sqrt s samples ≤ 255 := by
    have : channel_int Real.sqrt s samples < 256 := by
      rw [hi]; exact Int.floor_lt.mpr (by exact_mod_cast hx1)
    linarith
  refine ⟨hclamp x, h0, h1, ?_⟩
  simp only [channel_byte, to_uchar]
  exact Int.emod_eq_of_lt h0 (by linarith)

/-- Witness of C15 at `x = 2`, `s = 4`, `samples = 1`: the channel saturates
and the value stored is at most `255`. -/
theorem channel_byte_in_range_witness :
    (0 : ℝ) ≤ 4 ∧ (0 : Int) < 1 ∧ clamp (2 : ℝ) = min 2 1 ∧
    channel_int Real.sqrt (4 : ℝ) 1 ≤ 255 :=
  ⟨by norm_num, by norm_num,
    (channel_byte_in_range 2 4 1 (by norm_num) (by norm_num)).1,
    (channel_byte_in_range 2 4 1 (by norm_num) (by norm_num)).2.2.1⟩

/-- C16, as stated, fails: for `Nx = Ny = 32768`, both positive, the pair
`i = 0`, `j = 0` is in range and the 32-bit `int` product overflows:
`pixel_index` is `-1073840128`, a negative offset. -/
theorem pixel_index_overflows :
    (0 : Int) < 32768 ∧ (0 : Int) ≤ 0 ∧
    pixel_index 32768 32768 0 0 = -1073840128 ∧ ¬ (0 ≤ pixel_index 32768 32768 0 0) := by
  decide

/-- C16, amended: for all `Nx > 0`, `Ny > 0` with `3 * Nx * Ny < 2^31` (no
overflow of `int`), the array has `3 * Nx * Ny` bytes and, over `0 <= i < Nx`,
`0 <= j < Ny`: `pixel_index` is `(Ny - j - 1)*3*Nx + 3*i`, with
`0 <= pixel_index` and `pixel_index + 2 < 3*Nx*Ny`; `col_index` is `Nx*j + i`,
inside `0 .. Nx*Ny - 1`; output row `Ny - 1 - j` holds frame buffer row `j`;
the map is injective and reaches every multiple of `3` below `3*Nx*Ny`. -/
theorem copy_indices_in_bounds (Nx Ny : Int) (hNx : 0 < Nx) (hNy : 0 < Ny)
    (hb : 3 * Nx * Ny < 2147483648) :
    arr_size Nx Ny = 3 * Nx * Ny ∧
    (∀ i j : Int, 0 ≤ i → i < Nx → 0 ≤ j → j < Ny →
      pixel_index Nx Ny j i = (Ny - j - 1) * 3 * Nx + 3 * i ∧
      0 ≤ pixel_index Nx Ny j i ∧ pixel_index Nx Ny j i + 2 < arr_size Nx Ny ∧
      col_index Nx j i = Nx * j + i ∧
      0 ≤ col_index Nx j i ∧ col_index Nx j i < Nx * Ny ∧
      pixel_index Nx Ny j i = 3 * (Nx * (Ny - 1 - j) + i)) ∧
    (∀ i j i2 j2 : Int, 0 ≤ i → i < Nx → 0 ≤ j → j < Ny →
      0 ≤ i2 → i2 < Nx → 0 ≤ j2 → j2 < Ny →
      pixel_index Nx Ny j i = pixel_index Nx Ny j2 i2 → i = i2 ∧ j = j2) ∧
    (∀ m : Int, 0 ≤ m → m < Nx * Ny →
      ∃ i j : Int, 0 ≤ i ∧ i < Nx ∧ 0 ≤ j ∧ j < Ny ∧ pixel_index Nx Ny j i = 3 * m) := by
  have hpos : 0 < Nx * Ny := mul_pos hNx hNy
  have hsize : arr_size Nx Ny = 3 * Nx * Ny := by
    have e1 : wrap32 (Nx * Ny) = Nx * Ny := wrap32_id _ (by linarith) (by linarith)
    have e2 : wrap32 (Nx * Ny * 3) = Nx * Ny * 3 := wrap32_id _ (by linarith) (by linarith)
    simp only [arr_size, e1, e2]
    rw [Int.emod_eq_of_lt (by linarith) (by linarith)]
    ring
  refine ⟨hsize, ?_, ?_, ?_⟩
  · intro i j hi0 hi hj0 hj
    obtain ⟨hp, hp0, hp1, hc, hc0, hc1⟩ := index_exact Nx Ny i j hb hi0 hi hj0 hj
    refine ⟨hp, hp0, ?_, hc, hc0, hc1, ?_⟩
    · rw [hsize]; exact hp1
    · rw [hp]; ring
  · intro i j i2 j2 hi0 hi hj0 hj hi20 hi2 hj20 hj2 he
    rw [(index_exact Nx Ny i j hb hi0 hi hj0 hj).1,
      (index_exact Nx Ny i2 j2 hb hi20 hi2 hj20 hj2).1] at he
    have hjj : j = j2 := by
      rcases lt_trichotomy j j2 with h | h | h
      · exfalso
        have : j + 1 ≤ j2 := h
        nlinarith
      · exact h
      · exfalso
        have : j2 + 1 ≤ j := h
        nlinarith
    subst hjj
    exact ⟨by linarith, rfl⟩
  · intro m hm0 hm
    have hq0 : 0 ≤ m / Nx := Int.ediv_nonneg hm0 hNx.le
    have hq1 : m / Nx < Ny := Int.ediv_lt_of_lt_mul hNx (by rw [mul_comm]; exact hm)
    have hr0 : 0 ≤ m % Nx := Int.emod_nonneg _ hNx.ne'
    have hr1 : m % Nx < Nx := Int.emod_lt_of_pos _ hNx
    have hdm : Nx * (m / Nx) + m % Nx = m := Int.ediv_add_emod m Nx
    refine ⟨m % Nx, Ny - 1 - m / Nx, hr0, hr1, by linarith, by linarith, ?_⟩
    rw [(index_exact Nx Ny (m % Nx) (Ny - 1 - m / Nx) hb hr0 hr1 (by linarith) (by linarith)).1]
    linear_combination 3 * hdm

/-- Witness of the amended C16 at the size `main` uses, `Nx = Ny = 1080`: the
array has `3499200` bytes. -/
theorem copy_indices_in_bounds_witness :
    (0 : Int) < 1080 ∧ (3 : Int) * 1080 * 1080 < 2147483648 ∧
    arr_size 1080 1080 = 3 * 1080 * 1080 :=
  ⟨by decide, by decide,
    (copy_indices_in_bounds 1080 1080 (by decide) (by decide) (by decide)).1⟩

/-- C17 fails on the code at `app.model = 6`: the final `else` of the model
selection loads the sponza mesh, and no camera is set, because the camera
selection only covers `0 <= app.model < 5` and `app.model == 5`; at
`app.model = 5` the same mesh is loaded and the camera marked for sponza is
set. -/
theorem Test_Scene_model_six_sets_no_camera :
    (Test_Scene.meshes 6 true).map (fun m => m.fileName) = ["sponza.obj"] ∧
    Test_Scene.cameras 6 500 500 = [] ∧
    (Test_Scene.meshes 5 true).map (fun m => m.fileName) = ["sponza.obj"] ∧
    Test_Scene.cameras 5 500 500
      = [⟨⟨278, 278, -800⟩, ⟨278, 278, 0⟩, ⟨0, 1, 0⟩, 40, 1, 0, 10, 0, 1⟩] := by
  refine ⟨rfl, by decide, rfl, by norm_num [Test_Scene.cameras]⟩

/-! ## The claims on binary32 -/

set_option maxRecDepth 200000

/-- C2, as stated, fails on `float`: for `v = (0, 0, -2^70)`, `n = (0, 0, 1)`,
`ni_over_nt = 0.5` the squared length `2^140` overflows, the length is `+Inf`
(not zero, so the guard of the normalisation plays no part), `unit_vector(v)`
is `(0, 0, 0)`, and `refract` returns true with the vector
`(0, 0, -14529495/2^24)`, whose length is `14529495/2^24`, not `1`. -/
theorem refract_not_unit_on_overflow :
    (⟨0, 0, F32.fin (-1) 70⟩ : float3 F32) ≠ ⟨0, 0, 0⟩ ∧
    dot (⟨0, 0, 1⟩ : float3 F32) ⟨0, 0, 1⟩ = 1 ∧
    length F32.sqrt (⟨0, 0, F32.fin (-1) 70⟩ : float3 F32) = F32.pinf ∧
    refract (unit_vector F32.sqrt) F32.sqrt (⟨0, 0, F32.fin (-1) 70⟩ : float3 F32)
        ⟨0, 0, 1⟩ (F32.fin 1 (-1)) ⟨0, 0, 0⟩
      = (true, ⟨0, 0, F32.fin (-14529495) (-24)⟩) ∧
    length F32.sqrt (refract (unit_vector F32.sqrt) F32.sqrt
        (⟨0, 0, F32.fin (-1) 70⟩ : float3 F32) ⟨0, 0, 1⟩ (F32.fin 1 (-1)) ⟨0, 0, 0⟩).2
      = F32.fin 14529495 (-24) ∧
    length F32.sqrt (refract (unit_vector F32.sqrt) F32.sqrt
        (⟨0, 0, F32.fin (-1) 70⟩ : float3 F32) ⟨0, 0, 1⟩ (F32.fin 1 (-1)) ⟨0, 0, 0⟩).2
      ≠ 1 := by
  decide

/-- C3, as stated, fails on `float`: for `v = (1, 0, -2^-13)`, `n = (0, 0, 1)`
and `ni_over_nt = 1`, `v` is non-zero, `n` is a unit normal and
`dt = -2^-13 < 0`, but `1 - dt*dt` rounds to `1`, the discriminant is `0` and
`refract` returns false, leaving `refracted` as it was. -/
theorem refract_equal_index_false_on_rounding :
    (⟨1, 0, F32.fin (-1) (-13)⟩ : float3 F32) ≠ ⟨0, 0, 0⟩ ∧
    dot (⟨0, 0, 1⟩ : float3 F32) ⟨0, 0, 1⟩ = 1 ∧
    dot (unit_vector F32.sqrt (⟨1, 0, F32.fin (-1) (-13)⟩ : float3 F32)) ⟨0, 0, 1⟩
      = F32.fin (-1) (-13) ∧
    dot (unit_vector F32.sqrt (⟨1, 0, F32.fin (-1) (-13)⟩ : float3 F32)) ⟨0, 0, 1⟩ < 0 ∧
    refract_discriminant (unit_vector F32.sqrt) (⟨1, 0, F32.fin (-1) (-13)⟩ : float3 F32)
      ⟨0, 0, 1⟩ 1 = 0 ∧
    refract (unit_vector F32.sqrt) F32.sqrt (⟨1, 0, F32.fin (-1) (-13)⟩ : float3 F32)
        ⟨0, 0, 1⟩ 1 ⟨0, 0, 0⟩
      = (false, ⟨0, 0, 0⟩) := by
  decide

/-- C12, as stated, fails on `float`: with `n = (0, 0, 1)` and
`ni_over_nt = 2`, `refract` returns true for `v = (0, 0, -1)` and false for
`2^70 * v`, whose squared length overflows; and with `ni_over_nt = 0.5` the
vectors refracted from `v = (7, 3, -7)` and from `3 * v` differ in the last
bit of `y`. -/
theorem refract_scale_changes_result :
    (⟨0, 0, F32.fin (-1) 0⟩ : float3 F32) ≠ ⟨0, 0, 0⟩ ∧ (0 : F32) < F32.fin 1 70 ∧
    (refract (unit_vector F32.sqrt) F32.sqrt (⟨0, 0, F32.fin (-1) 0⟩ : float3 F32)
      ⟨0, 0, 1⟩ (F32.fin 1 1) ⟨0, 0, 0⟩).1 = true ∧
    (refract (unit_vector F32.sqrt) F32.sqrt
      (float3.smul (F32.fin 1 70) (⟨0, 0, F32.fin (-1) 0⟩ : float3 F32))
      ⟨0, 0, 1⟩ (F32.fin 1 1) ⟨0, 0, 0⟩).1 = false ∧
    (refract (unit_vector F32.sqrt) F32.sqrt
      (⟨F32.fin 7 0, F32.fin 3 0, F32.fin (-7) 0⟩ : float3 F32)
      ⟨0, 0, 1⟩ (F32.fin 1 (-1)) ⟨0, 0, 0⟩).2.y = F32.fin 9731489 (-26) ∧
    (refract (unit_vector F32.sqrt) F32.sqrt
      (float3.smul (F32.fin 3 0) (⟨F32.fin 7 0, F32.fin 3 0, F32.fin (-7) 0⟩ : float3 F32))
      ⟨0, 0, 1⟩ (F32.fin 1 (-1)) ⟨0, 0, 0⟩).2.y = F32.fin 304109 (-21) := by
  decide

/-- C14, as stated, fails on `float`: at `cosine = 0.5`, `ref_idx = 1.5`,
`schlick(0.5, 1.5) = 9395241/2^27` and
`schlick(0.5, 1/1.5) = 1174405/2^24 = 9395240/2^27`. -/
theorem schlick_reciprocal_differs_on_rounding :
    (0 : F32) < F32.fin 3 (-1) ∧
    schlick (F32.fin 1 (-1)) (F32.fin 3 (-1)) = F32.fin 9395241 (-27) ∧
    schlick (F32.fin 1 (-1)) (1 / F32.fin 3 (-1)) = F32.fin 1174405 (-24) ∧
    schlick (F32.fin 1 (-1)) (F32.fin 3 (-1))
      ≠ schlick (F32.fin 1 (-1)) (1 / F32.fin 3 (-1)) := by
  decide

/-- On `float`, the guard of the normalisation keeps `refract` returning true
where the squared length underflows: for `v = (0, 0, -2^-80)`, `n = (0, 0, 1)`,
`ni_over_nt = 0.5` the squared length rounds to zero, `unit_vector` returns `v`
as it is and the discriminant is `0.75`. -/
theorem refract_true_on_underflow :
    length F32.sqrt (⟨0, 0, F32.fin (-1) (-80)⟩ : float3 F32) = 0 ∧
    unit_vector F32.sqrt (⟨0, 0, F32.fin (-1) (-80)⟩ : float3 F32)
      = ⟨0, 0, F32.fin (-1) (-80)⟩ ∧
    refract_discriminant (unit_vector F32.sqrt) (⟨0, 0, F32.fin (-1) (-80)⟩ : float3 F32)
      ⟨0, 0, 1⟩ (F32.fin 1 (-1)) = F32.fin 3 (-2) ∧
    (refract (unit_vector F32.sqrt) F32.sqrt (⟨0, 0, F32.fin (-1) (-80)⟩ : float3 F32)
      ⟨0, 0, 1⟩ (F32.fin 1 (-1)) ⟨0, 0, 0⟩).1 = true := by
  decide

end OptiX
